import Mathlib

/-!
Verification of `vaspy/iter.py`: the OSZICAR iteration-log parser
(`OsziCar.match`, `OsziCar.load`, `OsziCar.esort`), the OUTCAR block
extractor (`OutCar.__iter__`) and the max-force selector (`OutCar.fmax`),
shallowly embedded over `List Char` / `String` with numeric values as exact
rationals.
-/

namespace VASPy

/- Character classes, mirroring Python's `re` on the ASCII text in scope:
`\s` is space, tab, newline, carriage return, vertical tab, form feed;
`\w` is alphanumerics plus underscore. -/

def isWS (c : Char) : Bool :=
  c = ' ' || c = '\t' || c = '\n' || c = '\r' || c = '\x0b' || c = '\x0c'

def isDigitC (c : Char) : Bool := c.isDigit

/-- Character class `[\w|\d|\s]` of the inner `eq_regex`: word characters,
the literal bar, digits and whitespace. -/
def isNameChar (c : Char) : Bool :=
  c.isAlphanum || c = '_' || c = '|' || isWS c

/-- Character class `[\+|-]` at the sign positions of `float_regex`; it also
contains the literal bar. -/
def isSignChar (c : Char) : Bool := c = '+' || c = '|' || c = '-'

/-- Character class `[e|E]` at the exponent marker of `float_regex`; it also
contains the literal bar. -/
def isExpChar (c : Char) : Bool := c = 'e' || c = '|' || c = 'E'

/-- In a non-MULTILINE Python pattern, `$` matches at the end of the string or
just before one trailing newline; a line read from a file carries at most one
trailing newline, so matching the stripped text is equivalent. -/
def stripNL (s : List Char) : List Char :=
  if s.getLast? = some '\n' then s.dropLast else s

def natOfDigits (ds : List Char) : Nat :=
  ds.foldl (fun acc c => 10 * acc + (c.toNat - '0'.toNat)) 0

/- Continuation-passing backtracking matchers for the pieces of
`split_regex = ^\s*(\d+)\s*((eq_regex)+)$` and
`eq_regex = \s*([\w|\d|\s]+)\=\s*([\+|-]?\d*\.\d*(?:[e|E][\+|-]?\d+)?)\s*`.
Alternatives are tried in the order a backtracking regex engine tries them:
the greedy branch first, the giving-back branches on failure of the rest. -/

/-- Greedy optional character class `[cls]?`: consuming is tried first. -/
def optCharIn {R : Type} (cls : Char → Bool) (k : Option Char → List Char → Option R) :
    List Char → Option R
  | [] => k none []
  | c :: s => if cls c then (k (some c) s) <|> k none (c :: s) else k none (c :: s)

/-- Greedy `\d*` with backtracking: longer runs of digits are tried first;
`acc` holds the digits committed so far. -/
def digitsBT {R : Type} (acc : List Char) (k : List Char → List Char → Option R) :
    List Char → Option R
  | [] => k acc []
  | c :: s =>
    if isDigitC c then (digitsBT (acc ++ [c]) k s) <|> k acc (c :: s)
    else k acc (c :: s)

/-- The pieces captured by `float_regex`: optional sign character, integer
digits and fractional digits around the mandatory dot, and an optional
exponent (marker character, optional sign character, exponent digits). -/
structure FloatParts where
  sign : Option Char
  ipart : List Char
  fpart : List Char
  expPart : Option (Char × Option Char × List Char)
deriving DecidableEq

/-- After `[\+|-]?\d*\.\d*` has been consumed: the optional greedy
`(?:[e|E][\+|-]?\d+)?` exponent group — attempted first, the exponent-free
alternative on failure. -/
def floatExpCont {R : Type} (k : FloatParts → List Char → Option R)
    (sgn : Option Char) (ip fp : List Char) (s4 : List Char) : Option R :=
  (match s4 with
   | m :: s5 =>
     if isExpChar m then
       optCharIn isSignChar (fun esgn s6 =>
         match s6 with
         | c :: s7 =>
           if isDigitC c then
             digitsBT [c] (fun ds s8 =>
               k ⟨sgn, ip, fp, some (m, esgn, ds)⟩ s8) s7
           else none
         | [] => none) s5
     else none
   | [] => none) <|> k ⟨sgn, ip, fp, none⟩ s4

/-- After `[\+|-]?\d*`: the mandatory dot, then the greedy fractional
digits, then the exponent continuation. -/
def floatFracCont {R : Type} (k : FloatParts → List Char → Option R)
    (sgn : Option Char) (ip : List Char) (s2 : List Char) : Option R :=
  match s2 with
  | '.' :: s3 => digitsBT [] (floatExpCont k sgn ip) s3
  | _ => none

/-- Backtracking matcher for `float_regex`; the continuation receives the
captured pieces and the remaining input. -/
def parseFloatCPS {R : Type} (k : FloatParts → List Char → Option R)
    (s : List Char) : Option R :=
  optCharIn isSignChar (fun sgn s1 =>
    digitsBT [] (floatFracCont k sgn) s1) s

/-- Backtracking matcher for one `eq_regex` occurrence anchored at the start
of `s`.  The two `\s*` runs and the name are scanned greedily without
giving back: every character `\s` shares with the name class is in the name
class, `=` is in neither, and the float cannot start with whitespace, so the
greedy split is the only one a backtracking engine can commit to. -/
def parseEq {R : Type} (k : List Char → FloatParts → List Char → Option R)
    (s : List Char) : Option R :=
  let s1 := s.dropWhile isWS
  let nm := s1.takeWhile isNameChar
  if nm.isEmpty then none
  else
    match s1.dropWhile isNameChar with
    | '=' :: s3 =>
      parseFloatCPS (fun fp s4 => k nm fp (s4.dropWhile isWS)) (s3.dropWhile isWS)
    | _ => none

/-- Recogniser for `((eq_regex)+)$`, the tail of `split_regex`: after each
inner match, attempting one more repetition is preferred to stopping, and
stopping only succeeds at the end of the input.  `fuel` merely bounds the
recursion depth; every repetition consumes at least two characters, so
`s.length + 1` is never exhausted. -/
def eqPlusK : Nat → List Char → Option Unit
  | 0, _ => none
  | fuel + 1, s =>
    parseEq (fun _ _ s' =>
      (eqPlusK fuel s') <|> (if s'.isEmpty then some () else none)) s

/-- Matcher for `split_regex` applied with `re.search` to the
newline-stripped line: the `^` anchor pins the match to position 0.  Returns
the step digits (group 1) and the suffix at which group 2 starts.  `\d+` is
matched greedily with backtracking, since the name class that may follow
also contains digits. -/
def rawSplit (s : List Char) : Option (List Char × List Char) :=
  match s.dropWhile isWS with
  | [] => none
  | c :: r =>
    if isDigitC c then
      digitsBT [c] (fun ds s2 =>
        let resid := s2.dropWhile isWS
        match eqPlusK (resid.length + 1) resid with
        | some _ => some (ds, resid)
        | none => none) r
    else none

/-- The `eq_regex.findall` scan over the captured group 2: repeatedly take the
leftmost match, each one greedy and unconstrained on its right, and resume
right after it; when no match starts at the current position, advance one
character. -/
def findallEq : Nat → List Char → List (List Char × FloatParts)
  | 0, _ => []
  | _ + 1, [] => []
  | fuel + 1, c :: t =>
    match parseEq (fun nm fp s' => some (nm, fp, s')) (c :: t) with
    | some (nm, fp, s') => (nm, fp) :: findallEq fuel s'
    | none => findallEq fuel t

def floatSignVal : Option Char → ℚ
  | some '-' => -1
  | _ => 1

def digitsVal (ds : List Char) : ℚ := (natOfDigits ds : ℚ)

/-- Python `float()` applied to the text captured by `float_regex`: it
raises `ValueError` when a captured sign or marker is the literal bar the
classes `[\+|-]` / `[e|E]` admit, or when no digit at all surrounds the
mandatory dot; otherwise it denotes the written decimal value (modelled
exactly, as a rational). -/
def pyFloatOfParts (p : FloatParts) : Except String ℚ :=
  if p.sign = some '|' then .error "ValueError: could not convert string to float"
  else if p.ipart.isEmpty && p.fpart.isEmpty then
    .error "ValueError: could not convert string to float"
  else
    let mant := floatSignVal p.sign *
      (digitsVal p.ipart + digitsVal p.fpart / (10 : ℚ) ^ p.fpart.length)
    match p.expPart with
    | none => .ok mant
    | some (m, esgn, ds) =>
      if m = '|' || esgn = some '|' then
        .error "ValueError: could not convert string to float"
      else if esgn = some '-' then .ok (mant / (10 : ℚ) ^ natOfDigits ds)
      else .ok (mant * (10 : ℚ) ^ natOfDigits ds)

/-- Convert the numeric texts of the matched pairs in order; the first
`float()` failure propagates. -/
def convertPairs : List (List Char × FloatParts) → Except String (List ℚ)
  | [] => .ok []
  | (_, fp) :: rest =>
    match pyFloatOfParts fp with
    | .error e => .error e
    | .ok v =>
      match convertPairs rest with
      | .error e => .error e
      | .ok vs => .ok (v :: vs)

/-- Model of `OsziCar.match`: apply `split_regex` to the line; on success take the
step from group 1, re-scan group 2 with `eq_regex.findall`, strip the space
characters from each name, convert each numeric text with `float`, and
prepend `("step", step)`.  `.ok none` is a regex mismatch (Python `None`);
`.error` is a `ValueError` raised by `float()`. -/
def matchOszicar (line : String) : Except String (Option (List (String × ℚ))) :=
  match rawSplit (stripNL line.data) with
  | none => .ok none
  | some (ds, resid) =>
    let raw := findallEq (resid.length + 1) resid
    match convertPairs raw with
    | .error e => .error e
    | .ok nums =>
      let names := raw.map (fun p => String.mk (p.1.filter (fun c => c ≠ ' ')))
      .ok (some (("step", (natOfDigits ds : ℚ)) :: names.zip nums))

/- == OsziCar.load and OsziCar.esort == -/

/-- The parser state `load` builds up: the schema attribute `vars` (unset
until the first matched line), the dynamically created per-field sequences,
and the retained raw text blob.  The dynamic attributes are modelled as a
name-keyed association list, separate from the parser's own fields. -/
structure OsziState where
  vars : Option (List String)
  attrs : List (String × List ℚ)
  content : String
deriving DecidableEq

def initOszi : OsziState := ⟨none, [], ""⟩

def attrLookup (m : List (String × List ℚ)) (n : String) : Option (List ℚ) :=
  match m with
  | [] => none
  | (k, v) :: t => if k = n then some v else attrLookup t n

/-- Python `setattr(self, name, [v])` on first sight of a field name, otherwise
`getattr(self, name).append(v)`. -/
def attrAppend (m : List (String × List ℚ)) (n : String) (v : ℚ) :
    List (String × List ℚ) :=
  match m with
  | [] => [(n, [v])]
  | (k, vs) :: t => if k = n then (k, vs ++ [v]) :: t else (k, vs) :: attrAppend t n v

/-- One line of `load`'s loop: skip a mismatch, propagate a `float()` error,
otherwise snapshot the schema if still unset, append every pair's value to
its field's sequence, and retain the raw line. -/
def processLine (st : OsziState) (line : String) : Except String OsziState :=
  match matchOszicar line with
  | .error e => .error e
  | .ok none => .ok st
  | .ok (some pairs) =>
    let vars := match st.vars with
      | some vs => some vs
      | none => some (pairs.map Prod.fst)
    let attrs := pairs.foldl (fun m p => attrAppend m p.1 p.2) st.attrs
    .ok { vars := vars, attrs := attrs, content := st.content ++ line }

def loadAux (st : OsziState) : List String → Except String OsziState
  | [] => .ok st
  | l :: ls =>
    match processLine st l with
    | .error e => .error e
    | .ok st' => loadAux st' ls

/-- The array-materialisation epilogue of `load`: `for var in self.vars`
reads the `vars` attribute, which was never created when no line matched
(`AttributeError`); each schema name is then read back with `getattr` and
frozen into an array (the identity on the value level in this model). -/
def finalize (st : OsziState) : Except String OsziState :=
  match st.vars with
  | none => .error "AttributeError: vars"
  | some vs =>
    if vs.all (fun v => (attrLookup st.attrs v).isSome) then .ok st
    else .error "AttributeError: missing var"

/-- Model of `OsziCar.load` over the file's lines. -/
def loadOszicar (lines : List String) : Except String OsziState :=
  match loadAux initOszi lines with
  | .error e => .error e
  | .ok st => finalize st

/-- The ascending order `np.sort(zipped, order='var')` induces on the
structured records: primary key the value, the remaining field `step`
breaking ties (numpy uses the fields left out of `order`, in dtype order,
as tie-breakers), so the result is the unique sorted permutation. -/
def lexLe (a b : ℚ × ℚ) : Prop :=
  a.1 < b.1 ∨ (a.1 = b.1 ∧ a.2 ≤ b.2)

instance : DecidableRel lexLe := fun _ _ => inferInstanceAs (Decidable (_ ∨ _))

def sortPairs (l : List (ℚ × ℚ)) : List (ℚ × ℚ) := l.insertionSort lexLe

/-- Python list slicing `l[:stop]`, including the negative- and
out-of-range-index conventions. -/
def pySliceTo (stop : ℤ) (l : List α) : List α :=
  if stop < 0 then l.take (l.length - min stop.natAbs l.length)
  else l.take stop.toNat

/-- Python list slicing `l[start:]`, including the negative- and
out-of-range-index conventions. -/
def pySliceFrom (start : ℤ) (l : List α) : List α :=
  if start < 0 then l.drop (l.length - min start.natAbs l.length)
  else l.drop start.toNat

/-- Model of `OsziCar.esort`: pair the requested series with `step`, sort ascending
by value, then return `srted[:n]`, or `srted[-n:]` when `reverse`.  A series
that was never created fails at `getattr`, before anything else runs. -/
def esort (st : OsziState) (var : String) (n : ℤ) (reverse : Bool) :
    Except String (List (ℚ × ℚ)) :=
  match attrLookup st.attrs var with
  | none => .error ("AttributeError: " ++ var)
  | some vals =>
    match attrLookup st.attrs "step" with
    | none => .error "AttributeError: step"
    | some steps =>
      let srted := sortPairs (vals.zip steps)
      .ok (if reverse then pySliceFrom (-n) srted else pySliceTo n srted)

/- == OutCar.__iter__ == -/

def dropLit : List Char → List Char → Option (List Char)
  | [], s => some s
  | _ :: _, [] => none
  | p :: ps, c :: cs => if c = p then dropLit ps cs else none

/-- Model of `OutCar.force_regex = ^ POSITION\s+TOTAL-FORCE\s*\(eV\/Angst\)$`,
applied with `re.match`: one literal leading space, the two column labels
separated by at least one whitespace character, optional whitespace before
the literal units annotation, then the end of the newline-stripped line.
All greedy scans here border disjoint characters, so no backtracking
arises. -/
def isForceHeader (line : String) : Bool :=
  match dropLit " POSITION".data (stripNL line.data) with
  | none => false
  | some s1 =>
    match s1 with
    | [] => false
    | c :: s2 =>
      if isWS c then
        match dropLit "TOTAL-FORCE".data (s2.dropWhile isWS) with
        | none => false
        | some s3 =>
          match dropLit "(eV/Angst)".data (s3.dropWhile isWS) with
          | some [] => true
          | _ => false
      else false

/-- The separator test `"-"*6 in line`: the line contains six consecutive
dashes. -/
def hasSixDashes : List Char → Bool
  | [] => false
  | c :: t => List.isPrefixOf "------".data (c :: t) || hasSixDashes t

def isSepLine (line : String) : Bool := hasSixDashes line.data

def splitWSAux (cur : List Char) : List Char → List (List Char)
  | [] => if cur.isEmpty then [] else [cur.reverse]
  | c :: t =>
    if isWS c then
      if cur.isEmpty then splitWSAux [] t
      else cur.reverse :: splitWSAux [] t
    else splitWSAux (c :: cur) t

/-- Python `str.split()`: the maximal whitespace-free tokens of the line. -/
def splitWS (s : List Char) : List (List Char) := splitWSAux [] s

/-- A Python float literal (the grammar `float()` accepts for the report's
numeric tokens): optional sign, then digits with an optional dot and
fraction or a dot with a fraction, then an optional `e`/`E` exponent with
optional sign and at least one digit; its exact decimal value. -/
def parsePyFloat (s : List Char) : Option ℚ :=
  let p : ℚ × List Char :=
    match s with
    | '+' :: t => ((1 : ℚ), t)
    | '-' :: t => ((-1 : ℚ), t)
    | _ => ((1 : ℚ), s)
  let ip := p.2.takeWhile isDigitC
  let s2 := p.2.dropWhile isDigitC
  let hasDot := match s2 with | '.' :: _ => true | _ => false
  let s2' := if hasDot then s2.tail else s2
  let fp := s2'.takeWhile isDigitC
  let s3 := s2'.dropWhile isDigitC
  if ip.isEmpty && fp.isEmpty then none
  else
    let mant := p.1 * (digitsVal ip + digitsVal fp / (10 : ℚ) ^ fp.length)
    match s3 with
    | [] => some mant
    | c :: t =>
      if c = 'e' || c = 'E' then
        let q : Bool × List Char :=
          match t with
          | '+' :: r => (false, r)
          | '-' :: r => (true, r)
          | _ => (false, t)
        let ed := q.2.takeWhile isDigitC
        if ed.isEmpty || !(q.2.dropWhile isDigitC).isEmpty then none
        else if q.1 then some (mant / (10 : ℚ) ^ natOfDigits ed)
        else some (mant * (10 : ℚ) ^ natOfDigits ed)
      else none

def convTokens : List (List Char) → Except String (List ℚ)
  | [] => .ok []
  | t :: ts =>
    match parsePyFloat t with
    | none => .error "ValueError: could not convert string to float"
    | some v =>
      match convTokens ts with
      | .error e => .error e
      | .ok vs => .ok (v :: vs)

/-- Modelled from the spec: `line2list` (imported from the `vaspy.functions`
module, which is not present in `src/`) splits a report line on whitespace
and converts every token to a float; a non-numeric token fails with the
FormatError-class conversion error. -/
def line2list (line : String) : Except String (List ℚ) :=
  convTokens (splitWS line.data)

/-- The scanner state of `OutCar.__iter__`: the step counter and the two
flags (`collect_begin`, `collecting`) plus the accumulators of the block
being collected.  Idle is `(false, *)`, HeaderSeen `(true, false)`,
Collecting `(true, true)`. -/
structure OutState where
  ionStep : Nat
  collectBegin : Bool
  collecting : Bool
  coords : List (List ℚ)
  forces : List (List ℚ)
deriving DecidableEq

def initOut : OutState := ⟨0, false, false, [], []⟩

abbrev StepRecord := Nat × List (List ℚ) × List (List ℚ)

/-- One loop iteration of `OutCar.__iter__`, with the source's branch order:
in Idle a header match increments the counter; in HeaderSeen a separator
starts collection with fresh accumulators; in Collecting a separator closes
and yields the block, and any other line must unpack into exactly six
numbers (three coordinates, three force components) — otherwise the
unpacking raises. -/
def outStep (st : OutState) (line : String) :
    Except String (OutState × Option StepRecord) :=
  if !st.collectBegin then
    if isForceHeader line then
      .ok ({ st with collectBegin := true, ionStep := st.ionStep + 1 }, none)
    else .ok (st, none)
  else if !st.collecting then
    if isSepLine line then
      .ok ({ st with collecting := true, coords := [], forces := [] }, none)
    else .ok (st, none)
  else
    if isSepLine line then
      .ok ({ st with collecting := false, collectBegin := false },
           some (st.ionStep, st.coords, st.forces))
    else
      match line2list line with
      | .error e => .error e
      | .ok [x, y, z, fx, fy, fz] =>
        .ok ({ st with coords := st.coords ++ [[x, y, z]],
                       forces := st.forces ++ [[fx, fy, fz]] }, none)
      | .ok _ => .error "ValueError: cannot unpack into 6 values"

/-- Run the scanner over the remaining lines, collecting the yielded
records; a partial block held in the state when the lines run out is
dropped, as the generator simply returns. -/
def runOut (st : OutState) : List String → Except String (List StepRecord)
  | [] => .ok []
  | l :: ls =>
    match outStep st l with
    | .error e => .error e
    | .ok (st', none) => runOut st' ls
    | .ok (st', some r) =>
      match runOut st' ls with
      | .error e => .error e
      | .ok rs => .ok (r :: rs)

/-- One full traversal of `OutCar.__iter__` over the file's lines. -/
def iterOutcar (lines : List String) : Except String (List StepRecord) :=
  runOut initOut lines

/- == OutCar.fmax == -/

/-- The per-vector key `sum([x**2 for i in x])` of `OutCar.fmax`, as
written: the comprehension evaluates `x ** 2` — the whole sequence raised to
a power — once per component, which raises `TypeError` for any non-empty
vector; only the empty vector reaches `sum([]) = 0`. -/
def fmaxKey (x : List ℚ) : Except String ℚ :=
  match x with
  | [] => .ok 0
  | _ :: _ => .error "TypeError: unsupported operand type(s) for ** or pow()"

/-- Python `max(iterable, key=...)` as the interpreter evaluates it: the key of the first
element, then of each following element in order, replacing the current best
only on strictly greater (first occurrence wins ties); a key error
propagates. -/
def pyMaxByAux (key : List ℚ → Except String ℚ) (best : List ℚ) (bk : ℚ) :
    List (List ℚ) → Except String (List ℚ)
  | [] => .ok best
  | a :: t =>
    match key a with
    | .error e => .error e
    | .ok k => if bk < k then pyMaxByAux key a k t else pyMaxByAux key best bk t

def pyMaxBy (key : List ℚ → Except String ℚ) :
    List (List ℚ) → Except String (List ℚ)
  | [] => .error "ValueError: max() arg is an empty sequence"
  | a :: t =>
    match key a with
    | .error e => .error e
    | .ok k => pyMaxByAux key a k t

/-- Model of `OutCar.fmax` as in the source: select with `max` under the written key,
then recover the index with `list.index` (the first equal element). -/
def fmax (atomForces : List (List ℚ)) : Except String (Nat × List ℚ) :=
  match pyMaxBy fmaxKey atomForces with
  | .error e => .error e
  | .ok v => .ok (atomForces.indexOf v, v)

/-- The true squared Euclidean magnitude — the sum of each component
squared. -/
def sqMagnitude (x : List ℚ) : ℚ := (x.map (fun c => c * c)).sum

/-- The selector under the corrected contract the spec states for
`select_max`: the key is the squared Euclidean magnitude, maximal value
selected, ties broken by first occurrence. -/
def fmaxSpec (atomForces : List (List ℚ)) : Except String (Nat × List ℚ) :=
  match pyMaxBy (fun x => .ok (sqMagnitude x)) atomForces with
  | .error e => .error e
  | .ok v => .ok (atomForces.indexOf v, v)

/-- Did `OsziCar.match` return a match for this line (Python: not `None`)? -/
def isMatchedLine (l : String) : Bool :=
  match matchOszicar l with
  | .ok (some _) => true
  | _ => false

/-- Concatenation of a list of lines, in order. -/
def concatLines : List String → String
  | [] => ""
  | l :: ls => l ++ concatLines ls

/-- The raw text of the exponent group of a float, from its captured
pieces: marker, optional sign, digits. -/
def expText : Option (Char × Option Char × List Char) → List Char
  | none => []
  | some (m, es, D) => m :: (es.toList ++ D)

/-- The raw text of a dotted float from its pieces: optional sign, integer
digits, the mandatory dot, fractional digits, optional exponent text. -/
def floatText (sgn : Option Char) (I F : List Char)
    (expn : Option (Char × Option Char × List Char)) : List Char :=
  sgn.toList ++ I ++ '.' :: F ++ expText expn

/- ====================  Theorems  ==================== -/

section Theorems

attribute [local semireducible] Rat.mul Rat.add Rat.sub Rat.inv

instance {ε α : Type} [DecidableEq ε] [DecidableEq α] : DecidableEq (Except ε α) :=
  fun a b =>
    match a, b with
    | .error e, .error e' => decidable_of_iff (e = e') (by simp)
    | .ok v, .ok v' => decidable_of_iff (v = v') (by simp)
    | .error _, .ok _ => isFalse (by simp)
    | .ok _, .error _ => isFalse (by simp)

/- == C1 == -/

lemma loadAux_no_match (lines : List String) (st : OsziState)
    (h : ∀ l ∈ lines, matchOszicar l = .ok none) : loadAux st lines = .ok st := by
  induction lines generalizing st with
  | nil => rfl
  | cons l ls ih =>
    have hl := h l (by simp)
    simp only [loadAux, processLine, hl]
    exact ih _ (fun x hx => h x (by simp [hx]))

/-- C1 (counterexample): the file consisting of the single line `"hello\n"`
has no line matching the iteration-log pattern, yet `load` does not complete:
it raises an `AttributeError` reading the never-created `vars` attribute, so
no empty schema or empty arrays are produced. -/
theorem c1_load_no_match_counterexample :
    matchOszicar "hello\n" = .ok none ∧
    loadOszicar ["hello\n"] = .error "AttributeError: vars" := by
  exact ⟨rfl, rfl⟩

/-- C1 (amended): for every input file in which no line matches the
iteration-log pattern, `load` raises the missing-attribute error on the
schema attribute `vars` instead of completing. -/
theorem c1_load_no_match_raises (lines : List String)
    (h : ∀ l ∈ lines, matchOszicar l = .ok none) :
    loadOszicar lines = .error "AttributeError: vars" := by
  unfold loadOszicar
  rw [loadAux_no_match lines initOszi h]
  rfl

theorem c1_load_no_match_raises_witness :
    (∀ l ∈ ["hello\n"], matchOszicar l = .ok none) ∧
    loadOszicar ["hello\n"] = .error "AttributeError: vars" :=
  ⟨by decide, c1_load_no_match_raises ["hello\n"] (by decide)⟩

/- == C2 == -/

/-- C2 (code bug): on `[(0,0,1),(0,0,5),(0,0,-5)]` the selector as written
raises `TypeError` — its key expression squares the whole vector, not the
components — whereas under the corrected squared-magnitude contract stated
by the spec it returns index 1 with vector `(0,0,5)` (stable tie-break
against index 2, which has the same magnitude). -/
theorem c2_fmax_code_bug :
    fmax [[0, 0, 1], [0, 0, 5], [0, 0, -5]] =
      .error "TypeError: unsupported operand type(s) for ** or pow()" ∧
    fmaxSpec [[0, 0, 1], [0, 0, 5], [0, 0, -5]] = .ok (1, [0, 0, 5]) := by
  exact ⟨rfl, by decide⟩

/- == C9 == -/

/-- C9: requesting a field that was never discovered during `load` (no
per-field sequence was ever created for it) makes `esort` fail with the
missing-field error at the point of use; the `load` that produced the state
itself succeeded. -/
theorem c9_missing_field_error (lines : List String) (st : OsziState)
    (var : String) (n : ℤ) (rev : Bool)
    (_hload : loadOszicar lines = .ok st)
    (hmiss : attrLookup st.attrs var = none) :
    esort st var n rev = .error ("AttributeError: " ++ var) := by
  unfold esort
  rw [hmiss]

theorem c9_missing_field_error_witness :
    esort ⟨some ["step", "E0"], [("step", [1]), ("E0", [1])], "1 E0=1.0\n"⟩
        "F" 3 true = .error "AttributeError: F" :=
  c9_missing_field_error ["1 E0=1.0\n"] _ "F" 3 true (by decide) (by decide)

/- == The OutCar scanner: shared block lemma == -/

/-- Running the scanner from an Idle state over one well-formed two-entity
block yields that block's record in front of whatever the remaining lines
produce, leaving the scanner Idle with the step counter advanced. -/
lemma run_block (st : OutState) (h s d1 d2 e : String) (rest : List String)
    (x1 y1 z1 u1 u2 u3 x2 y2 z2 w1 w2 w3 : ℚ)
    (hcb : st.collectBegin = false) (hcl : st.collecting = false)
    (hh : isForceHeader h = true) (hs : isSepLine s = true)
    (hd1 : isSepLine d1 = false)
    (hl1 : line2list d1 = .ok [x1, y1, z1, u1, u2, u3])
    (hd2 : isSepLine d2 = false)
    (hl2 : line2list d2 = .ok [x2, y2, z2, w1, w2, w3])
    (he : isSepLine e = true) :
    runOut st (h :: s :: d1 :: d2 :: e :: rest) =
      (runOut ⟨st.ionStep + 1, false, false,
          [[x1, y1, z1], [x2, y2, z2]], [[u1, u2, u3], [w1, w2, w3]]⟩ rest).map
        (fun rs => (st.ionStep + 1, [[x1, y1, z1], [x2, y2, z2]],
          [[u1, u2, u3], [w1, w2, w3]]) :: rs) := by
  simp only [runOut, outStep, hcb, hcl, hh, hs, hd1, hl1, hd2, hl2, he,
    Bool.not_false, Bool.not_true, if_true, if_false, Bool.false_eq_true,
    ite_true, ite_false, List.nil_append, List.singleton_append]
  cases hrun : runOut ⟨st.ionStep + 1, false, false,
      [[x1, y1, z1], [x2, y2, z2]], [[u1, u2, u3], [w1, w2, w3]]⟩ rest with
  | error msg => rfl
  | ok rs => rfl

/- == C5 == -/

/-- C5: a report made of exactly two well-formed blocks of two entities each
yields exactly two records, with step indices 1 and 2, and with the two
coordinate rows and the two force rows of each block in file order (so both
sequences have length 2 in each record). -/
theorem c5_two_blocks (h1 s1 d11 d12 e1 h2 s2 d21 d22 e2 : String)
    (x1 y1 z1 u1 u2 u3 x2 y2 z2 w1 w2 w3 : ℚ)
    (a1 b1 c1 p1 p2 p3 a2 b2 c2 q1 q2 q3 : ℚ)
    (hh1 : isForceHeader h1 = true) (hs1 : isSepLine s1 = true)
    (hd11 : isSepLine d11 = false)
    (hl11 : line2list d11 = .ok [x1, y1, z1, u1, u2, u3])
    (hd12 : isSepLine d12 = false)
    (hl12 : line2list d12 = .ok [x2, y2, z2, w1, w2, w3])
    (he1 : isSepLine e1 = true)
    (hh2 : isForceHeader h2 = true) (hs2 : isSepLine s2 = true)
    (hd21 : isSepLine d21 = false)
    (hl21 : line2list d21 = .ok [a1, b1, c1, p1, p2, p3])
    (hd22 : isSepLine d22 = false)
    (hl22 : line2list d22 = .ok [a2, b2, c2, q1, q2, q3])
    (he2 : isSepLine e2 = true) :
    iterOutcar [h1, s1, d11, d12, e1, h2, s2, d21, d22, e2] =
      .ok [(1, [[x1, y1, z1], [x2, y2, z2]], [[u1, u2, u3], [w1, w2, w3]]),
           (2, [[a1, b1, c1], [a2, b2, c2]], [[p1, p2, p3], [q1, q2, q3]])] := by
  unfold iterOutcar
  rw [show ([h1, s1, d11, d12, e1, h2, s2, d21, d22, e2] : List String) =
    h1 :: s1 :: d11 :: d12 :: e1 :: [h2, s2, d21, d22, e2] from rfl]
  rw [run_block initOut h1 s1 d11 d12 e1 _ _ _ _ _ _ _ _ _ _ _ _ _
    rfl rfl hh1 hs1 hd11 hl11 hd12 hl12 he1]
  rw [show ([h2, s2, d21, d22, e2] : List String) =
    h2 :: s2 :: d21 :: d22 :: e2 :: [] from rfl]
  rw [run_block _ h2 s2 d21 d22 e2 [] _ _ _ _ _ _ _ _ _ _ _ _
    rfl rfl hh2 hs2 hd21 hl21 hd22 hl22 he2]
  rfl

theorem c5_two_blocks_witness :
    iterOutcar [" POSITION TOTAL-FORCE (eV/Angst)\n",
      "------\n", "1.0 2.0 3.0 0.1 0.2 0.3\n", "0.5 0.5 0.5 0.0 0.0 0.0\n",
      "------\n", " POSITION TOTAL-FORCE (eV/Angst)\n",
      "------\n", "9.0 9.0 9.0 1.0 1.0 1.0\n", "8.0 8.0 8.0 2.0 2.0 2.0\n",
      "------\n"] =
      .ok [(1, [[1, 2, 3], [1/2, 1/2, 1/2]], [[1/10, 1/5, 3/10], [0, 0, 0]]),
           (2, [[9, 9, 9], [8, 8, 8]], [[1, 1, 1], [2, 2, 2]])] :=
  c5_two_blocks _ _ _ _ _ _ _ _ _ _ _ _ _ _ _ _ _ _ _ _ _ _ _ _ _ _ _ _ _ _ _ _ _ _
    (by decide) (by decide) (by decide) (by decide) (by decide) (by decide)
    (by decide) (by decide) (by decide) (by decide) (by decide) (by decide)
    (by decide) (by decide)

/- == C6 == -/

/-- C6: while the scanner is in the Collecting state, a data line whose
tokens do not unpack into exactly six numbers (here: five) raises the
format error, which propagates and aborts the traversal; no record for the
open block is yielded. -/
theorem c6_malformed_aborts (st : OutState) (l : String) (rest : List String)
    (a b c u v : ℚ)
    (hcb : st.collectBegin = true) (hcl : st.collecting = true)
    (hsep : isSepLine l = false)
    (hl : line2list l = .ok [a, b, c, u, v]) :
    runOut st (l :: rest) = .error "ValueError: cannot unpack into 6 values" := by
  simp [runOut, outStep, hcb, hcl, hsep, hl]

theorem c6_malformed_aborts_witness :
    runOut ⟨1, true, true, [], []⟩ ["1.0 2.0 3.0 0.1 0.2\n"] =
      .error "ValueError: cannot unpack into 6 values" :=
  c6_malformed_aborts ⟨1, true, true, [], []⟩ "1.0 2.0 3.0 0.1 0.2\n" []
    1 2 3 (1/10) (1/5) rfl rfl (by decide) (by decide)

/- == C7 == -/

/-- In the Collecting state, well-formed data lines are absorbed without any
yield: reaching the end of the lines discards the partial block. -/
lemma run_good_data (ds : List String) : ∀ (st : OutState),
    st.collectBegin = true → st.collecting = true →
    (∀ d ∈ ds, isSepLine d = false ∧
      ∃ a b c u v w : ℚ, line2list d = .ok [a, b, c, u, v, w]) →
    runOut st ds = .ok [] := by
  induction ds with
  | nil => intro st _ _ _; rfl
  | cons d t ih =>
    intro st hcb hcl hall
    obtain ⟨hsep, a, b, c, u, v, w, hl⟩ := hall d (by simp)
    simp only [runOut, outStep, hcb, hcl, hsep, Bool.not_true, if_false,
      Bool.false_eq_true, ite_false, hl]
    exact ih _ (by simp [hcb]) (by simp [hcl]) (fun x hx => hall x (by simp [hx]))

/-- C7: when the stream ends while the scanner is mid-block — right after a
header (HeaderSeen), or after the separator and any number of well-formed
data lines (Collecting) — the partial block is silently discarded: only the
complete block that preceded it is yielded, and the traversal ends without
error. -/
theorem c7_truncated_discarded (h1 s1 d11 d12 e1 h2 s2 : String)
    (ds : List String) (x1 y1 z1 u1 u2 u3 x2 y2 z2 w1 w2 w3 : ℚ)
    (hh1 : isForceHeader h1 = true) (hs1 : isSepLine s1 = true)
    (hd11 : isSepLine d11 = false)
    (hl11 : line2list d11 = .ok [x1, y1, z1, u1, u2, u3])
    (hd12 : isSepLine d12 = false)
    (hl12 : line2list d12 = .ok [x2, y2, z2, w1, w2, w3])
    (he1 : isSepLine e1 = true)
    (hh2 : isForceHeader h2 = true) (hs2 : isSepLine s2 = true)
    (hds : ∀ d ∈ ds, isSepLine d = false ∧
      ∃ a b c u v w : ℚ, line2list d = .ok [a, b, c, u, v, w]) :
    iterOutcar [h1, s1, d11, d12, e1, h2] =
      .ok [(1, [[x1, y1, z1], [x2, y2, z2]], [[u1, u2, u3], [w1, w2, w3]])] ∧
    iterOutcar ([h1, s1, d11, d12, e1, h2, s2] ++ ds) =
      .ok [(1, [[x1, y1, z1], [x2, y2, z2]], [[u1, u2, u3], [w1, w2, w3]])] := by
  constructor
  · unfold iterOutcar
    rw [show ([h1, s1, d11, d12, e1, h2] : List String) =
      h1 :: s1 :: d11 :: d12 :: e1 :: [h2] from rfl]
    rw [run_block initOut h1 s1 d11 d12 e1 _ _ _ _ _ _ _ _ _ _ _ _ _
      rfl rfl hh1 hs1 hd11 hl11 hd12 hl12 he1]
    simp [runOut, outStep, hh2, Except.map, initOut]
  · unfold iterOutcar
    rw [show (([h1, s1, d11, d12, e1, h2, s2] ++ ds) : List String) =
      h1 :: s1 :: d11 :: d12 :: e1 :: (h2 :: s2 :: ds) from rfl]
    rw [run_block initOut h1 s1 d11 d12 e1 _ _ _ _ _ _ _ _ _ _ _ _ _
      rfl rfl hh1 hs1 hd11 hl11 hd12 hl12 he1]
    simp only [runOut, outStep, hh2, hs2, Bool.not_false, Bool.not_true,
      if_true, if_false, ite_true, ite_false, Bool.false_eq_true]
    rw [run_good_data ds _ rfl rfl hds]
    rfl

theorem c7_truncated_discarded_witness :
    iterOutcar [" POSITION TOTAL-FORCE (eV/Angst)\n",
      "------\n", "1.0 2.0 3.0 0.1 0.2 0.3\n", "0.5 0.5 0.5 0.0 0.0 0.0\n",
      "------\n", " POSITION TOTAL-FORCE (eV/Angst)\n"] =
      .ok [(1, [[1, 2, 3], [1/2, 1/2, 1/2]], [[1/10, 1/5, 3/10], [0, 0, 0]])] ∧
    iterOutcar ([" POSITION TOTAL-FORCE (eV/Angst)\n",
      "------\n", "1.0 2.0 3.0 0.1 0.2 0.3\n", "0.5 0.5 0.5 0.0 0.0 0.0\n",
      "------\n", " POSITION TOTAL-FORCE (eV/Angst)\n", "------\n"] ++
      ["9.0 9.0 9.0 1.0 1.0 1.0\n"]) =
      .ok [(1, [[1, 2, 3], [1/2, 1/2, 1/2]], [[1/10, 1/5, 3/10], [0, 0, 0]])] :=
  c7_truncated_discarded _ _ _ _ _ _ _ _ _ _ _ _ _ _ _ _ _ _ _ _
    (by decide) (by decide) (by decide) (by decide) (by decide) (by decide)
    (by decide) (by decide) (by decide)
    (fun d hd => by
      simp only [List.mem_singleton] at hd
      subst hd
      exact ⟨by decide, 9, 9, 9, 1, 1, 1, by decide⟩)

/- == C10 == -/

/-- Every outcome of one scanner step: an error; a silent step that
preserves the index of the next record to come; or a yield of the current
counter that closes the block. -/
lemma outStep_shape (st : OutState) (l : String) :
    (∃ msg, outStep st l = .error msg) ∨
    (∃ st', outStep st l = .ok (st', none) ∧
      st'.ionStep + (if st'.collectBegin then 0 else 1) =
        st.ionStep + (if st.collectBegin then 0 else 1)) ∨
    (∃ st' r, outStep st l = .ok (st', some r) ∧ r.1 = st.ionStep ∧
      st.collectBegin = true ∧ st'.ionStep = st.ionStep ∧
      st'.collectBegin = false) := by
  by_cases hcb : st.collectBegin
  · by_cases hcl : st.collecting
    · by_cases hsep : isSepLine l
      · right; right
        exact ⟨{ st with collecting := false, collectBegin := false },
          (st.ionStep, st.coords, st.forces),
          by simp [outStep, hcb, hcl, hsep], rfl, hcb, rfl, rfl⟩
      · cases hl : line2list l with
        | error msg =>
          left; exact ⟨msg, by simp [outStep, hcb, hcl, hsep, hl]⟩
        | ok nums =>
          rcases nums with _ | ⟨x, _ | ⟨y, _ | ⟨z, _ | ⟨u, _ | ⟨v, _ | ⟨w, _ | ⟨t, ts⟩⟩⟩⟩⟩⟩⟩ <;>
            solve
            | (right; left;
               refine ⟨⟨st.ionStep, st.collectBegin, st.collecting,
                   st.coords ++ [[x, y, z]], st.forces ++ [[u, v, w]]⟩, ?_, ?_⟩ <;>
                 simp [outStep, hcb, hcl, hsep, hl])
            | (left;
               refine ⟨"ValueError: cannot unpack into 6 values", ?_⟩
               simp [outStep, hcb, hcl, hsep, hl])
    · by_cases hsep : isSepLine l
      · right; left
        exact ⟨{ st with collecting := true, coords := [], forces := [] },
          by simp [outStep, hcb, hcl, hsep], by simp [hcb]⟩
      · right; left
        exact ⟨st, by simp [outStep, hcb, hcl, hsep], rfl⟩
  · by_cases hh : isForceHeader l
    · right; left
      exact ⟨{ st with collectBegin := true, ionStep := st.ionStep + 1 },
        by simp [outStep, hcb, hh], by simp [hcb]⟩
    · right; left
      exact ⟨st, by simp [outStep, hcb, hh], rfl⟩

/-- The step indices of the records yielded from any scanner state are
consecutive, starting at the current counter (already advanced when a block
is open). -/
lemma runOut_steps (lines : List String) : ∀ (st : OutState) (recs : List StepRecord),
    runOut st lines = .ok recs →
    recs.map (fun r => r.1) =
      List.range' (st.ionStep + (if st.collectBegin then 0 else 1)) recs.length := by
  induction lines with
  | nil =>
    intro st recs h
    cases h
    rfl
  | cons l ls ih =>
    intro st recs h
    rcases outStep_shape st l with ⟨msg, hstep⟩ | ⟨st', hstep, hpres⟩ |
      ⟨st', r, hstep, hr, hcb, hion, hcb'⟩
    · simp only [runOut, hstep] at h
      exact Except.noConfusion h
    · simp only [runOut, hstep] at h
      rw [← hpres]
      exact ih st' recs h
    · simp only [runOut, hstep] at h
      cases hrun : runOut st' ls with
      | error msg =>
        rw [hrun] at h
        exact Except.noConfusion h
      | ok rs =>
        simp only [hrun, Except.ok.injEq] at h
        subst h
        have hrs := ih st' rs hrun
        rw [hion, hcb'] at hrs
        simp only [List.map_cons, hrs, List.length_cons, hcb, hr,
          if_true, ite_true, List.range'_succ]
        simp

/-- C10: every traversal of the scanner that terminates without an exception
yields records whose step indices are exactly the consecutive sequence
1, 2, ..., k: the header pattern cannot advance the counter again before the
open block has been yielded. -/
theorem c10_steps_consecutive (lines : List String) (recs : List StepRecord)
    (h : iterOutcar lines = .ok recs) :
    recs.map (fun r => r.1) = List.range' 1 recs.length := by
  have := runOut_steps lines initOut recs h
  simpa [initOut] using this

theorem c10_steps_consecutive_witness :
    ([(1, [[1, 2, 3]], [[1, 1, 1]]), (2, [[9, 9, 9]], [[2, 2, 2]])] :
        List StepRecord).map (fun r => r.1) =
      List.range' 1 ([(1, [[1, 2, 3]], [[1, 1, 1]]),
        (2, [[9, 9, 9]], [[2, 2, 2]])] : List StepRecord).length :=
  c10_steps_consecutive
    [" POSITION TOTAL-FORCE (eV/Angst)\n", "------\n", "1.0 2.0 3.0 1.0 1.0 1.0\n",
      "------\n", " POSITION TOTAL-FORCE (eV/Angst)\n", "------\n",
      "9.0 9.0 9.0 2.0 2.0 2.0\n", "------\n"] _ (by decide)

/- == C4 == -/

instance : IsTrans (ℚ × ℚ) lexLe :=
  ⟨by
    rintro a b c (h1 | ⟨h1, h1'⟩) (h2 | ⟨h2, h2'⟩)
    · exact Or.inl (h1.trans h2)
    · exact Or.inl (h2 ▸ h1)
    · exact Or.inl (h1 ▸ h2)
    · exact Or.inr ⟨h1.trans h2, h1'.trans h2'⟩⟩

instance : IsTotal (ℚ × ℚ) lexLe :=
  ⟨by
    intro a b
    rcases lt_trichotomy a.1 b.1 with h | h | h
    · exact Or.inl (Or.inl h)
    · rcases le_total a.2 b.2 with h2 | h2
      · exact Or.inl (Or.inr ⟨h, h2⟩)
      · exact Or.inr (Or.inr ⟨h.symm, h2⟩)
    · exact Or.inr (Or.inl h)⟩

lemma sortPairs_length (l : List (ℚ × ℚ)) : (sortPairs l).length = l.length :=
  (List.perm_insertionSort lexLe l).length_eq

lemma sortPairs_sorted (l : List (ℚ × ℚ)) : List.Sorted lexLe (sortPairs l) :=
  List.sorted_insertionSort lexLe l

/-- C4 (counterexample): a file with a single matched line loads fine, the
field `E0` exists, yet `top_n("E0", 2, reverse := false)` returns only one
pair — not "exactly `n`" pairs — because the slice is clipped at the data's
length. -/
theorem c4_esort_short_counterexample :
    loadOszicar ["1 E0=1.0\n"] =
      .ok ⟨some ["step", "E0"], [("step", [1]), ("E0", [1])], "1 E0=1.0\n"⟩ ∧
    esort ⟨some ["step", "E0"], [("step", [1]), ("E0", [1])], "1 E0=1.0\n"⟩
        "E0" 2 false = .ok [(1, 1)] := by
  exact ⟨by decide, by decide⟩

/-- C4 (amended): for `0 ≤ n ≤` the number of steps, the forward call
returns the first `n` pairs of the ascending value-sorted sequence (exactly
`n` of them, ascending); for `1 ≤ n`, the reverse call returns the last `n`
pairs of that same ascending sequence — the `n` largest values, still in
ascending order: `reverse` only changes which end of the sorted sequence is
taken.  (At `n = 0` with `reverse` the slice `srted[-0:]` is the whole
sequence, a Python slicing quirk excluded here.) -/
theorem c4_esort_slices (st : OsziState) (var : String) (n : ℤ)
    (vals steps : List ℚ)
    (hv : attrLookup st.attrs var = some vals)
    (hs : attrLookup st.attrs "step" = some steps)
    (hn0 : 0 ≤ n) (hnle : n ≤ (vals.zip steps).length) :
    esort st var n false = .ok ((sortPairs (vals.zip steps)).take n.toNat) ∧
    ((sortPairs (vals.zip steps)).take n.toNat).length = n.toNat ∧
    List.Sorted lexLe (sortPairs (vals.zip steps)) ∧
    (1 ≤ n →
      esort st var n true =
        .ok ((sortPairs (vals.zip steps)).drop
          ((vals.zip steps).length - n.toNat)) ∧
      ((sortPairs (vals.zip steps)).drop
        ((vals.zip steps).length - n.toNat)).length = n.toNat) := by
  have hlen : (sortPairs (vals.zip steps)).length = (vals.zip steps).length :=
    sortPairs_length _
  have htn : n.toNat ≤ (vals.zip steps).length := by
    omega
  refine ⟨?_, ?_, sortPairs_sorted _, ?_⟩
  · unfold esort
    rw [hv, hs]
    simp only [pySliceTo, if_neg (not_lt.2 hn0)]
    simp
  · rw [List.length_take, hlen]
    omega
  · intro hn1
    constructor
    · unfold esort
      rw [hv, hs]
      have hneg : -n < 0 := by omega
      simp only [pySliceFrom, if_pos hneg, hlen]
      have hmin : min (-n).natAbs (vals.zip steps).length = n.toNat := by
        omega
      rw [hmin]
      simp
    · rw [List.length_drop, hlen]
      omega

theorem c4_esort_slices_witness :
    esort ⟨some ["step", "E0"],
        [("step", [1, 2, 3]), ("E0", [1, 7/2, 1/2])], ""⟩ "E0" 2 false =
      .ok ((sortPairs (([1, 7/2, 1/2] : List ℚ).zip [1, 2, 3])).take
        (2 : ℤ).toNat) ∧
    ((sortPairs (([1, 7/2, 1/2] : List ℚ).zip [1, 2, 3])).take
      (2 : ℤ).toNat).length = (2 : ℤ).toNat ∧
    List.Sorted lexLe (sortPairs (([1, 7/2, 1/2] : List ℚ).zip [1, 2, 3])) ∧
    ((1 : ℤ) ≤ 2 →
      esort ⟨some ["step", "E0"],
          [("step", [1, 2, 3]), ("E0", [1, 7/2, 1/2])], ""⟩ "E0" 2 true =
        .ok ((sortPairs (([1, 7/2, 1/2] : List ℚ).zip [1, 2, 3])).drop
          ((([1, 7/2, 1/2] : List ℚ).zip [1, 2, 3]).length - (2 : ℤ).toNat)) ∧
      ((sortPairs (([1, 7/2, 1/2] : List ℚ).zip [1, 2, 3])).drop
        ((([1, 7/2, 1/2] : List ℚ).zip [1, 2, 3]).length -
          (2 : ℤ).toNat)).length = (2 : ℤ).toNat) :=
  c4_esort_slices _ "E0" 2 [1, 7/2, 1/2] [1, 2, 3]
    (by decide) (by decide) (by decide) (by decide)

/- == C8 == -/

lemma loadAux_content (lines : List String) :
    ∀ (st st' : OsziState), loadAux st lines = .ok st' →
      st'.content = st.content ++ concatLines (lines.filter isMatchedLine) := by
  induction lines with
  | nil =>
    intro st st' h
    cases h
    exact (String.append_empty _).symm
  | cons l ls ih =>
    intro st st' h
    cases hm : matchOszicar l with
    | error e => simp [loadAux, processLine, hm] at h
    | ok opt =>
      cases opt with
      | none =>
        have hml : isMatchedLine l = false := by simp [isMatchedLine, hm]
        simp only [loadAux, processLine, hm] at h
        rw [List.filter_cons, hml]
        simp only [Bool.false_eq_true, if_false]
        exact ih st st' h
      | some pairs =>
        have hml : isMatchedLine l = true := by simp [isMatchedLine, hm]
        simp only [loadAux, processLine, hm] at h
        rw [List.filter_cons, hml]
        simp only [if_true, ite_true]
        have h2 := ih _ st' h
        simp only at h2
        rw [h2, concatLines, ← String.append_assoc]

lemma finalize_ok (st st' : OsziState) (h : finalize st = .ok st') : st' = st := by
  unfold finalize at h
  cases hv : st.vars with
  | none =>
    simp only [hv] at h
    exact Except.noConfusion h
  | some vs =>
    simp only [hv] at h
    by_cases hall : (vs.all fun v => (attrLookup st.attrs v).isSome) = true
    · rw [if_pos hall] at h
      exact (Except.ok.inj h).symm
    · rw [if_neg hall] at h
      exact Except.noConfusion h

/-- C8: after a completed `load`, the retained raw content blob is exactly
the concatenation, in original file order, of the lines for which the
matcher returned a match; unmatched lines contribute nothing. -/
theorem c8_content_round_trip (lines : List String) (st : OsziState)
    (h : loadOszicar lines = .ok st) :
    st.content = concatLines (lines.filter isMatchedLine) := by
  unfold loadOszicar at h
  cases haux : loadAux initOszi lines with
  | error e => rw [haux] at h; exact Except.noConfusion h
  | ok st2 =>
    rw [haux] at h
    have hc := loadAux_content lines initOszi st2 haux
    rw [finalize_ok st2 st h, hc]
    rfl

theorem c8_content_round_trip_witness :
    OsziState.content
        ⟨some ["step", "E0"], [("step", [1, 2]), ("E0", [1, 7/2])],
          "1 E0=1.0\n2 E0=3.5\n"⟩ =
      concatLines ((["1 E0=1.0\n", "junk\n", "2 E0=3.5\n"].filter
        isMatchedLine)) :=
  c8_content_round_trip ["1 E0=1.0\n", "junk\n", "2 E0=3.5\n"] _ (by decide)

/- == C3 == -/

lemma not_sign_of_digit (c : Char) (h : isDigitC c = true) : isSignChar c = false := by
  unfold isSignChar
  by_cases h1 : c = '+'
  · subst h1; exact absurd h (by decide)
  by_cases h2 : c = '|'
  · subst h2; exact absurd h (by decide)
  by_cases h3 : c = '-'
  · subst h3; exact absurd h (by decide)
  simp [h1, h2, h3]

lemma not_ws_of_digit (c : Char) (h : isDigitC c = true) : isWS c = false := by
  unfold isWS
  by_cases h1 : c = ' '
  · subst h1; exact absurd h (by decide)
  by_cases h2 : c = '\t'
  · subst h2; exact absurd h (by decide)
  by_cases h3 : c = '\n'
  · subst h3; exact absurd h (by decide)
  by_cases h4 : c = '\r'
  · subst h4; exact absurd h (by decide)
  by_cases h5 : c = '\x0b'
  · subst h5; exact absurd h (by decide)
  by_cases h6 : c = '\x0c'
  · subst h6; exact absurd h (by decide)
  simp [h1, h2, h3, h4, h5, h6]

lemma stripNL_concat (xs : List Char) : stripNL (xs ++ ['\n']) = xs := by
  unfold stripNL
  rw [List.getLast?_concat, List.dropLast_concat]
  simp

lemma takeWhile_dropWhile_append (p : Char → Bool) (a b : List Char)
    (ha : ∀ c ∈ a, p c = true)
    (hb : match b with | [] => True | c :: _ => p c = false) :
    (a ++ b).takeWhile p = a ∧ (a ++ b).dropWhile p = b := by
  induction a with
  | nil =>
    cases b with
    | nil => exact ⟨rfl, rfl⟩
    | cons c t => simp [List.takeWhile_cons, List.dropWhile_cons, hb]
  | cons x xs ih =>
    have hx := ha x (by simp)
    have hrec := ih (fun c hc => ha c (by simp [hc]))
    simp [List.takeWhile_cons, List.dropWhile_cons, hx, hrec.1, hrec.2]

lemma optCharIn_yes {R : Type} (cls : Char → Bool) (c : Char) (rest : List Char)
    (k : Option Char → List Char → Option R) (r : R)
    (hc : cls c = true) (hk : k (some c) rest = some r) :
    optCharIn cls k (c :: rest) = some r := by
  simp [optCharIn, hc, hk]

lemma optCharIn_no {R : Type} (cls : Char → Bool) (s : List Char)
    (k : Option Char → List Char → Option R)
    (hs : match s with | [] => True | c :: _ => cls c = false) :
    optCharIn cls k s = k none s := by
  cases s with
  | nil => rfl
  | cons c t => simp [optCharIn, hs]

lemma digitsBT_run {R : Type} (I : List Char) (hI : ∀ c ∈ I, isDigitC c = true) :
    ∀ (acc rest : List Char) (k : List Char → List Char → Option R) (r : R),
    (match rest with | [] => True | c :: _ => isDigitC c = false) →
    k (acc ++ I) rest = some r →
    digitsBT acc k (I ++ rest) = some r := by
  induction I with
  | nil =>
    intro acc rest k r hrest hk
    cases rest with
    | nil => simpa using hk
    | cons c t =>
      simp only [List.nil_append] at hk ⊢
      simp only [digitsBT, hrest, Bool.false_eq_true, if_false, ite_false]
      simpa using hk
  | cons d I' ih =>
    intro acc rest k r hrest hk
    have hd : isDigitC d = true := hI d (by simp)
    have hrec := ih (fun c hc => hI c (by simp [hc])) (acc ++ [d]) rest k r hrest
      (by simpa [List.append_assoc] using hk)
    simp only [List.cons_append, digitsBT, hd, if_true, ite_true]
    rw [show I'.append rest = I' ++ rest from rfl, hrec]
    rfl

lemma floatExpCont_run {R : Type} (k : FloatParts → List Char → Option R) (r : R)
    (sgn : Option Char) (ip fp : List Char)
    (expn : Option (Char × Option Char × List Char))
    (hexp : match expn with
      | none => True
      | some (m, es, D) => (m = 'e' ∨ m = 'E') ∧
          (es = none ∨ es = some '+' ∨ es = some '-') ∧ D ≠ [] ∧
          ∀ c ∈ D, isDigitC c = true)
    (hk : k ⟨sgn, ip, fp, expn⟩ [] = some r) :
    floatExpCont k sgn ip fp (expText expn) = some r := by
  cases expn with
  | none =>
    unfold floatExpCont expText
    simp [hk]
  | some triple =>
    obtain ⟨m, es, D⟩ := triple
    obtain ⟨hm, hes, hD, hDd⟩ := hexp
    have hmx : isExpChar m = true := by
      rcases hm with rfl | rfl <;> decide
    obtain ⟨c, D', rfl⟩ : ∃ c D', D = c :: D' := by
      cases D with
      | nil => exact absurd rfl hD
      | cons c D' => exact ⟨c, D', rfl⟩
    have hcd : isDigitC c = true := hDd c (by simp)
    have hinner : digitsBT [c]
        (fun ds s8 => k ⟨sgn, ip, fp, some (m, es, ds)⟩ s8) D' = some r := by
      have := digitsBT_run D' (fun x hx => hDd x (by simp [hx])) [c] []
        (fun ds s8 => k ⟨sgn, ip, fp, some (m, es, ds)⟩ s8) r (by trivial)
        (by simpa using hk)
      simpa using this
    have houter : optCharIn isSignChar (fun esgn s6 =>
        match s6 with
        | c' :: s7 =>
          if isDigitC c' then
            digitsBT [c'] (fun ds s8 =>
              k ⟨sgn, ip, fp, some (m, esgn, ds)⟩ s8) s7
          else none
        | [] => none) (es.toList ++ (c :: D')) = some r := by
      rcases hes with rfl | rfl | rfl
      · rw [show (none : Option Char).toList ++ (c :: D') = c :: D' from rfl]
        rw [optCharIn_no isSignChar _ _ (by simpa using not_sign_of_digit c hcd)]
        simpa [hcd] using hinner
      · rw [show (some '+').toList ++ (c :: D') = '+' :: c :: D' from rfl]
        rw [optCharIn_yes isSignChar '+' (c :: D') _ r (by decide)
          (by simpa [hcd] using hinner)]
      · rw [show (some '-').toList ++ (c :: D') = '-' :: c :: D' from rfl]
        rw [optCharIn_yes isSignChar '-' (c :: D') _ r (by decide)
          (by simpa [hcd] using hinner)]
    unfold floatExpCont expText
    simp only [hmx, if_true, ite_true]
    rw [houter]
    rfl

lemma expText_head_not_digit (expn : Option (Char × Option Char × List Char))
    (hexp : match expn with
      | none => True
      | some (m, es, D) => (m = 'e' ∨ m = 'E') ∧
          (es = none ∨ es = some '+' ∨ es = some '-') ∧ D ≠ [] ∧
          ∀ c ∈ D, isDigitC c = true) :
    match expText expn with | [] => True | c :: _ => isDigitC c = false := by
  cases expn with
  | none => trivial
  | some triple =>
    obtain ⟨m, es, D⟩ := triple
    rcases hexp.1 with rfl | rfl <;> simp [expText] <;> decide

lemma floatFracCont_run {R : Type} (k : FloatParts → List Char → Option R) (r : R)
    (sgn : Option Char) (ip F : List Char)
    (expn : Option (Char × Option Char × List Char))
    (hF : ∀ c ∈ F, isDigitC c = true)
    (hexp : match expn with
      | none => True
      | some (m, es, D) => (m = 'e' ∨ m = 'E') ∧
          (es = none ∨ es = some '+' ∨ es = some '-') ∧ D ≠ [] ∧
          ∀ c ∈ D, isDigitC c = true)
    (hk : k ⟨sgn, ip, F, expn⟩ [] = some r) :
    floatFracCont k sgn ip ('.' :: (F ++ expText expn)) = some r := by
  unfold floatFracCont
  exact digitsBT_run F hF [] (expText expn) (floatExpCont k sgn ip) r
    (expText_head_not_digit expn hexp)
    (by simpa using floatExpCont_run k r sgn ip F expn hexp hk)

lemma floatText_head_not_ws (sgn : Option Char) (I F : List Char)
    (expn : Option (Char × Option Char × List Char))
    (hsgn : sgn = none ∨ sgn = some '+' ∨ sgn = some '-')
    (hI : ∀ c ∈ I, isDigitC c = true) :
    match floatText sgn I F expn with | [] => True | c :: _ => isWS c = false := by
  rcases hsgn with rfl | rfl | rfl
  · cases I with
    | nil => simp [floatText]; decide
    | cons d t =>
      have := not_ws_of_digit d (hI d (by simp))
      simpa [floatText] using this
  · simp [floatText]; decide
  · simp [floatText]; decide

lemma parseFloatCPS_run {R : Type} (k : FloatParts → List Char → Option R) (r : R)
    (sgn : Option Char) (I F : List Char)
    (expn : Option (Char × Option Char × List Char))
    (hsgn : sgn = none ∨ sgn = some '+' ∨ sgn = some '-')
    (hI : ∀ c ∈ I, isDigitC c = true) (hF : ∀ c ∈ F, isDigitC c = true)
    (hexp : match expn with
      | none => True
      | some (m, es, D) => (m = 'e' ∨ m = 'E') ∧
          (es = none ∨ es = some '+' ∨ es = some '-') ∧ D ≠ [] ∧
          ∀ c ∈ D, isDigitC c = true)
    (hk : k ⟨sgn, I, F, expn⟩ [] = some r) :
    parseFloatCPS k (floatText sgn I F expn) = some r := by
  have hmain : ∀ sg : Option Char,
      digitsBT [] (floatFracCont k sg) (I ++ '.' :: (F ++ expText expn)) =
        some r → True := fun _ _ => trivial
  have hbody : ∀ sg : Option Char,
      (k ⟨sg, I, F, expn⟩ [] = some r) →
      digitsBT [] (floatFracCont k sg) (I ++ '.' :: (F ++ expText expn)) =
        some r := by
    intro sg hks
    exact digitsBT_run I hI [] ('.' :: (F ++ expText expn))
      (floatFracCont k sg) r (show isDigitC '.' = false by decide)
      (by simpa using floatFracCont_run k r sg I F expn hF hexp hks)
  unfold parseFloatCPS floatText
  rcases hsgn with rfl | rfl | rfl
  · rw [show (none : Option Char).toList ++ I ++ '.' :: F ++ expText expn =
      I ++ '.' :: (F ++ expText expn) by simp]
    rw [optCharIn_no isSignChar _ _ ?hd]
    case hd =>
      cases I with
      | nil => simp; decide
      | cons d t => simpa using not_sign_of_digit d (hI d (by simp))
    exact hbody none hk
  · rw [show (some '+').toList ++ I ++ '.' :: F ++ expText expn =
      '+' :: (I ++ '.' :: (F ++ expText expn)) by simp]
    exact optCharIn_yes isSignChar '+' _ _ r (by decide) (hbody (some '+') hk)
  · rw [show (some '-').toList ++ I ++ '.' :: F ++ expText expn =
      '-' :: (I ++ '.' :: (F ++ expText expn)) by simp]
    exact optCharIn_yes isSignChar '-' _ _ r (by decide) (hbody (some '-') hk)

lemma dropWhile_head_false (p : Char → Bool) (s : List Char)
    (hs : match s with | [] => True | c :: _ => p c = false) :
    s.dropWhile p = s := by
  cases s with
  | nil => rfl
  | cons c t => simp [List.dropWhile_cons, hs]

lemma parseEq_run {R : Type} (k : List Char → FloatParts → List Char → Option R)
    (r : R) (nm : List Char) (sgn : Option Char) (I F : List Char)
    (expn : Option (Char × Option Char × List Char))
    (hnm : nm ≠ []) (hnmc : ∀ c ∈ nm, isNameChar c = true)
    (hnmh : match nm with | [] => True | c :: _ => isWS c = false)
    (hsgn : sgn = none ∨ sgn = some '+' ∨ sgn = some '-')
    (hI : ∀ c ∈ I, isDigitC c = true) (hF : ∀ c ∈ F, isDigitC c = true)
    (hexp : match expn with
      | none => True
      | some (m, es, D) => (m = 'e' ∨ m = 'E') ∧
          (es = none ∨ es = some '+' ∨ es = some '-') ∧ D ≠ [] ∧
          ∀ c ∈ D, isDigitC c = true)
    (hk : k nm ⟨sgn, I, F, expn⟩ [] = some r) :
    parseEq k (nm ++ '=' :: floatText sgn I F expn) = some r := by
  obtain ⟨c0, nt, rfl⟩ : ∃ c0 nt, nm = c0 :: nt := by
    cases nm with
    | nil => exact absurd rfl hnm
    | cons a b => exact ⟨a, b, rfl⟩
  have hc0 : isWS c0 = false := by simpa using hnmh
  obtain ⟨htake, hdrop⟩ := takeWhile_dropWhile_append isNameChar (c0 :: nt)
    ('=' :: floatText sgn I F expn) hnmc (show isNameChar '=' = false by decide)
  have htake' : (c0 :: (nt ++ '=' :: floatText sgn I F expn)).takeWhile isNameChar
      = c0 :: nt := htake
  have hdrop' : (c0 :: (nt ++ '=' :: floatText sgn I F expn)).dropWhile isNameChar
      = '=' :: floatText sgn I F expn := hdrop
  have hws : (c0 :: (nt ++ '=' :: floatText sgn I F expn)).dropWhile isWS
      = c0 :: (nt ++ '=' :: floatText sgn I F expn) := by
    simp [List.dropWhile_cons, hc0]
  simp only [parseEq, List.cons_append, hws, htake', hdrop', List.isEmpty_cons,
    Bool.false_eq_true, if_false, ite_false]
  rw [dropWhile_head_false isWS _ (floatText_head_not_ws sgn I F expn hsgn hI)]
  exact parseFloatCPS_run _ r sgn I F expn hsgn hI hF hexp (by simpa using hk)

lemma eqPlusK_nil (fuel : Nat) : eqPlusK fuel [] = none := by
  cases fuel with
  | zero => rfl
  | succ n => rfl

lemma eqPlusK_run (fuel : Nat) (nm : List Char) (sgn : Option Char)
    (I F : List Char) (expn : Option (Char × Option Char × List Char))
    (hnm : nm ≠ []) (hnmc : ∀ c ∈ nm, isNameChar c = true)
    (hnmh : match nm with | [] => True | c :: _ => isWS c = false)
    (hsgn : sgn = none ∨ sgn = some '+' ∨ sgn = some '-')
    (hI : ∀ c ∈ I, isDigitC c = true) (hF : ∀ c ∈ F, isDigitC c = true)
    (hexp : match expn with
      | none => True
      | some (m, es, D) => (m = 'e' ∨ m = 'E') ∧
          (es = none ∨ es = some '+' ∨ es = some '-') ∧ D ≠ [] ∧
          ∀ c ∈ D, isDigitC c = true) :
    eqPlusK (fuel + 1) (nm ++ '=' :: floatText sgn I F expn) = some () := by
  show parseEq _ _ = some ()
  exact parseEq_run _ () nm sgn I F expn hnm hnmc hnmh hsgn hI hF hexp
    (by rw [eqPlusK_nil]; rfl)

lemma findallEq_nil (fuel : Nat) : findallEq fuel [] = [] := by
  cases fuel <;> rfl

lemma findallEq_run (fuel : Nat) (nm : List Char) (sgn : Option Char)
    (I F : List Char) (expn : Option (Char × Option Char × List Char))
    (hnm : nm ≠ []) (hnmc : ∀ c ∈ nm, isNameChar c = true)
    (hnmh : match nm with | [] => True | c :: _ => isWS c = false)
    (hsgn : sgn = none ∨ sgn = some '+' ∨ sgn = some '-')
    (hI : ∀ c ∈ I, isDigitC c = true) (hF : ∀ c ∈ F, isDigitC c = true)
    (hexp : match expn with
      | none => True
      | some (m, es, D) => (m = 'e' ∨ m = 'E') ∧
          (es = none ∨ es = some '+' ∨ es = some '-') ∧ D ≠ [] ∧
          ∀ c ∈ D, isDigitC c = true) :
    findallEq (fuel + 1) (nm ++ '=' :: floatText sgn I F expn) =
      [(nm, ⟨sgn, I, F, expn⟩)] := by
  obtain ⟨c0, nt, rfl⟩ : ∃ c0 nt, nm = c0 :: nt := by
    cases nm with
    | nil => exact absurd rfl hnm
    | cons a b => exact ⟨a, b, rfl⟩
  have hp : parseEq (fun nm fp s' => some (nm, fp, s'))
      ((c0 :: nt) ++ '=' :: floatText sgn I F expn) =
      some ((c0 :: nt), ⟨sgn, I, F, expn⟩, []) :=
    parseEq_run _ _ (c0 :: nt) sgn I F expn hnm hnmc hnmh hsgn hI hF hexp rfl
  have hp' : parseEq (fun nm fp s' => some (nm, fp, s'))
      (c0 :: (nt ++ '=' :: floatText sgn I F expn)) =
      some ((c0 :: nt), ⟨sgn, I, F, expn⟩, []) := hp
  show findallEq (fuel + 1) (c0 :: (nt ++ '=' :: floatText sgn I F expn)) = _
  simp only [findallEq, hp', findallEq_nil]

lemma rawSplit_run (rest : List Char)
    (hhead : match rest with | [] => True | c :: _ => isWS c = false)
    (heq : eqPlusK (rest.length + 1) rest = some ()) :
    rawSplit ('1' :: ' ' :: rest) = some (['1'], rest) := by
  have hres : List.dropWhile isWS (' ' :: rest) = rest := by
    rw [show List.dropWhile isWS (' ' :: rest) = List.dropWhile isWS rest by
      simp [List.dropWhile_cons, show isWS ' ' = true by decide]]
    exact dropWhile_head_false isWS rest hhead
  show (match eqPlusK ((List.dropWhile isWS (' ' :: rest)).length + 1)
      (List.dropWhile isWS (' ' :: rest)) with
    | some _ => some (['1'], List.dropWhile isWS (' ' :: rest))
    | none => none) = some (['1'], rest)
  rw [hres, heq]

lemma matchOszicar_eval (line : String) (ds resid : List Char)
    (raw : List (List Char × FloatParts))
    (h1 : rawSplit (stripNL line.data) = some (ds, resid))
    (h2 : findallEq (resid.length + 1) resid = raw) :
    matchOszicar line =
      match convertPairs raw with
      | .error e => .error e
      | .ok nums => .ok (some (("step", (natOfDigits ds : ℚ)) ::
          (raw.map (fun p => String.mk (p.1.filter (fun c => c ≠ ' ')))).zip nums)) := by
  simp only [matchOszicar, h1, h2]

/-- C3 (counterexample): the line `"1 E0=4\n"` — a `name = value` pair whose
value is written with integer digits and no decimal point — is rejected by
the line matcher (`match` returns `None`): `float_regex` demands a literal
dot. -/
theorem c3_integer_value_rejected : matchOszicar "1 E0=4\n" = .ok none := rfl

/-- C3 (amended): a `name = value` pair is accepted and its value converted
whenever the value text consists of an optional `+`/`-` sign, optional
integer digits, a **mandatory decimal point**, optional fractional digits
(with at least one digit on one side of the point), and an optional `e`/`E`
exponent with an optional `+`/`-` sign and at least one digit; the line
yields the step and the name (spaces stripped) bound to the written decimal
value.  A value with no decimal point (e.g. `E0=4`) is rejected. -/
theorem c3_dotted_float_accepted (nm : List Char) (sgn : Option Char)
    (I F : List Char) (expn : Option (Char × Option Char × List Char)) (v : ℚ)
    (hnm : nm ≠ []) (hnmc : ∀ c ∈ nm, isNameChar c = true)
    (hnmh : match nm with | [] => True | c :: _ => isWS c = false)
    (hsgn : sgn = none ∨ sgn = some '+' ∨ sgn = some '-')
    (hI : ∀ c ∈ I, isDigitC c = true) (hF : ∀ c ∈ F, isDigitC c = true)
    (hexp : match expn with
      | none => True
      | some (m, es, D) => (m = 'e' ∨ m = 'E') ∧
          (es = none ∨ es = some '+' ∨ es = some '-') ∧ D ≠ [] ∧
          ∀ c ∈ D, isDigitC c = true)
    (hv : pyFloatOfParts ⟨sgn, I, F, expn⟩ = .ok v) :
    matchOszicar (String.mk
        (('1' :: ' ' :: (nm ++ '=' :: floatText sgn I F expn)) ++ ['\n'])) =
      .ok (some [("step", (1 : ℚ)),
        (String.mk (nm.filter (fun c => c ≠ ' ')), v)]) := by
  have hhead : match (nm ++ '=' :: floatText sgn I F expn) with
      | [] => True | c :: _ => isWS c = false := by
    cases nm with
    | nil => exact absurd rfl hnm
    | cons c0 nt => simpa using hnmh
  have h1 : rawSplit (stripNL ((String.mk
      (('1' :: ' ' :: (nm ++ '=' :: floatText sgn I F expn)) ++ ['\n'])).data)) =
      some (['1'], nm ++ '=' :: floatText sgn I F expn) := by
    rw [show (String.mk
      (('1' :: ' ' :: (nm ++ '=' :: floatText sgn I F expn)) ++ ['\n'])).data =
      ('1' :: ' ' :: (nm ++ '=' :: floatText sgn I F expn)) ++ ['\n'] from rfl]
    rw [stripNL_concat]
    exact rawSplit_run _ hhead
      (eqPlusK_run _ nm sgn I F expn hnm hnmc hnmh hsgn hI hF hexp)
  have h2 := findallEq_run ((nm ++ '=' :: floatText sgn I F expn).length)
    nm sgn I F expn hnm hnmc hnmh hsgn hI hF hexp
  rw [matchOszicar_eval _ ['1'] _ _ h1 h2]
  rw [show convertPairs [(nm, (⟨sgn, I, F, expn⟩ : FloatParts))] = .ok [v] by
    simp [convertPairs, hv]]
  rw [show natOfDigits ['1'] = 1 from rfl]
  simp

theorem c3_dotted_float_accepted_witness :
    matchOszicar (String.mk
        (('1' :: ' ' :: (['E', '0'] ++ '=' ::
          floatText (some '-') ['1'] ['2', '3'] (some ('e', some '+', ['1'])))) ++
          ['\n'])) =
      .ok (some [("step", (1 : ℚ)),
        (String.mk ((['E', '0'] : List Char).filter (fun c => c ≠ ' ')),
          (-123 / 10 : ℚ))]) :=
  c3_dotted_float_accepted ['E', '0'] (some '-') ['1'] ['2', '3']
    (some ('e', some '+', ['1'])) (-123 / 10)
    (by decide) (by decide) (by decide) (by decide) (by decide) (by decide)
    (by decide) (by decide)

end Theorems

end VASPy
